import Mathlib

/-!
Shallow embedding of AceTimePython's inline zone-info generator
(`src/inline_zone_info.py`) together with the query surface of the
time-zone transition engine described by the specification.

Python dictionaries are embedded as association lists (`List (String × α)`)
with insertion-order semantics: assigning to an existing key replaces the
stored value in place, assigning to a fresh key appends the pair.  A failed
dictionary subscript (`KeyError`) is embedded as `Except.error` carrying the
missing key.
-/

/-- Association-list embedding of a Python `dict` subscript read:
the value stored under `k`, if any. -/
def dictLookup {α : Type} (m : List (String × α)) (k : String) : Option α :=
  (m.find? (fun p => decide (p.1 = k))).map Prod.snd

/-- Association-list embedding of a Python `dict` subscript write
`m[k] = v`: replace in place when the key exists, append otherwise. -/
def dictInsert {α : Type} (m : List (String × α)) (k : String) (v : α) :
    List (String × α) :=
  if m.any (fun p => decide (p.1 = k)) then
    m.map (fun p => if p.1 = k then (k, v) else p)
  else
    m ++ [(k, v)]

theorem dictLookup_nil {α : Type} (k : String) :
    dictLookup ([] : List (String × α)) k = none := rfl

theorem dictLookup_cons {α : Type} (a : String × α) (m : List (String × α))
    (k : String) :
    dictLookup (a :: m) k = if a.1 = k then some a.2 else dictLookup m k := by
  by_cases h : a.1 = k <;> simp [dictLookup, List.find?, h]

theorem dictLookup_append_of_not_mem {α : Type} (acc l : List (String × α))
    (k : String) (h : ∀ p ∈ acc, p.1 ≠ k) :
    dictLookup (acc ++ l) k = dictLookup l k := by
  induction acc with
  | nil => rfl
  | cons a t ih =>
      rw [List.cons_append, dictLookup_cons]
      have ha : a.1 ≠ k := h a (by simp)
      simp only [ha, if_false]
      exact ih (fun p hp => h p (by simp [hp]))

theorem dictLookup_isSome_iff {α : Type} (m : List (String × α)) (k : String) :
    (dictLookup m k).isSome = true ↔ k ∈ m.map Prod.fst := by
  induction m with
  | nil => simp [dictLookup]
  | cons a t ih =>
      rw [dictLookup_cons]
      by_cases h : a.1 = k
      · simp [h]
      · have hne : k ≠ a.1 := fun hc => h hc.symm
        simp [h, ih, hne]

theorem dictInsert_of_not_mem {α : Type} (m : List (String × α)) (k : String)
    (v : α) (h : ∀ p ∈ m, p.1 ≠ k) :
    dictInsert m k v = m ++ [(k, v)] := by
  have hany : ¬ (m.any (fun p => decide (p.1 = k)) = true) := by
    simp only [List.any_eq_true, decide_eq_true_eq]
    rintro ⟨p, hp, hpk⟩
    exact h p hp hpk
  rw [dictInsert, if_neg hany]

theorem mem_dictInsert {α : Type} (m : List (String × α)) (k : String) (v : α)
    (q : String × α) (hq : q ∈ dictInsert m k v) :
    q ∈ m ∨ q = (k, v) := by
  rw [dictInsert] at hq
  by_cases h : m.any (fun p => decide (p.1 = k)) = true
  · rw [if_pos h] at hq
    obtain ⟨p, hp, hpq⟩ := List.mem_map.mp hq
    by_cases hk : p.1 = k
    · right
      rw [if_pos hk] at hpq
      exact hpq.symm
    · left
      rw [if_neg hk] at hpq
      exact hpq ▸ hp
  · rw [if_neg h] at hq
    rcases List.mem_append.mp hq with h1 | h1
    · exact Or.inl h1
    · exact Or.inr (List.mem_singleton.mp h1)

theorem mem_keys_dictInsert {α : Type} (m : List (String × α)) (k : String)
    (v : α) (x : String) :
    x ∈ (dictInsert m k v).map Prod.fst ↔ x ∈ m.map Prod.fst ∨ x = k := by
  rw [dictInsert]
  by_cases h : m.any (fun p => decide (p.1 = k)) = true
  · rw [if_pos h]
    have hk : k ∈ m.map Prod.fst := by
      simp only [List.any_eq_true, decide_eq_true_eq] at h
      obtain ⟨p, hp, hpk⟩ := h
      exact List.mem_map.mpr ⟨p, hp, hpk⟩
    rw [List.map_map]
    constructor
    · intro hx
      obtain ⟨p, hp, hpx⟩ := List.mem_map.mp hx
      by_cases hpk : p.1 = k
      · right
        rw [Function.comp_apply, if_pos hpk] at hpx
        exact hpx.symm
      · left
        rw [Function.comp_apply, if_neg hpk] at hpx
        exact List.mem_map.mpr ⟨p, hp, hpx⟩
    · rintro (hx | rfl)
      · obtain ⟨p, hp, hpx⟩ := List.mem_map.mp hx
        refine List.mem_map.mpr ⟨p, hp, ?_⟩
        by_cases hpk : p.1 = k
        · rw [Function.comp_apply, if_pos hpk]
          rw [← hpx, hpk]
        · rw [Function.comp_apply, if_neg hpk]
          exact hpx
      · obtain ⟨p, hp, hpx⟩ := List.mem_map.mp hk
        refine List.mem_map.mpr ⟨p, hp, ?_⟩
        rw [Function.comp_apply, if_pos hpx]
  · rw [if_neg h]
    simp

theorem dictLookup_map_replace_ne {α : Type} (m : List (String × α))
    (k : String) (v : α) (x : String) (hx : x ≠ k) :
    dictLookup (m.map (fun p => if p.1 = k then (k, v) else p)) x =
      dictLookup m x := by
  induction m with
  | nil => rfl
  | cons a t ih =>
      rw [List.map_cons, dictLookup_cons, dictLookup_cons]
      by_cases hak : a.1 = k
      · rw [if_pos hak]
        have h1 : ((k, v) : String × α).1 ≠ x := fun hc => hx (Eq.symm hc)
        have h2 : a.1 ≠ x := fun hc => hx ((hak ▸ hc).symm)
        simp only [h1, h2, if_false]
        exact ih
      · rw [if_neg hak]
        by_cases hax : a.1 = x
        · simp [hax]
        · simp only [hax, if_false]
          exact ih

theorem dictLookup_append_single_ne {α : Type} (m : List (String × α))
    (k : String) (v : α) (x : String) (hx : x ≠ k) :
    dictLookup (m ++ [(k, v)]) x = dictLookup m x := by
  induction m with
  | nil =>
      rw [List.nil_append, dictLookup_cons]
      have h1 : ((k, v) : String × α).1 ≠ x := fun hc => hx (Eq.symm hc)
      simp [h1, dictLookup]
  | cons a t ih =>
      rw [List.cons_append, dictLookup_cons, dictLookup_cons]
      by_cases hax : a.1 = x
      · simp [hax]
      · simp only [hax, if_false]
        exact ih

theorem dictLookup_dictInsert_ne {α : Type} (m : List (String × α))
    (k : String) (v : α) (x : String) (hx : x ≠ k) :
    dictLookup (dictInsert m k v) x = dictLookup m x := by
  rw [dictInsert]
  by_cases h : m.any (fun p => decide (p.1 = k)) = true
  · rw [if_pos h]
    exact dictLookup_map_replace_ne m k v x hx
  · rw [if_neg h]
    exact dictLookup_append_single_ne m k v x hx

theorem dictLookup_eq_some_of_mem_nodup {α : Type} (m : List (String × α))
    (k : String) (v : α) (hnd : (m.map Prod.fst).Nodup) (hm : (k, v) ∈ m) :
    dictLookup m k = some v := by
  induction m with
  | nil => cases hm
  | cons a t ih =>
      rw [List.map_cons, List.nodup_cons] at hnd
      rw [dictLookup_cons]
      rcases List.mem_cons.mp hm with h | h
      · simp [← h]
      · have hak : a.1 ≠ k := by
          intro hcontra
          exact hnd.1 (hcontra ▸ List.mem_map.mpr ⟨(k, v), h, rfl⟩)
        simp only [hak, if_false]
        exact ih hnd.2 h

/-- Input rule record, the fields of the compiler-produced `ZoneRules[]`
entries that `InlineZoneInfo._generate_policies` reads. -/
structure InRule where
  from_year : Int
  to_year : Int
  in_month : Int
  on_day_of_week : Int
  on_day_of_month : Int
  at_seconds_truncated : Int
  at_time_suffix : String
  delta_seconds_truncated : Int
  letter : String
deriving DecidableEq, Repr

/-- Input era record, the fields of the compiler-produced `ZoneEra[]`
entries that `InlineZoneInfo._generate_infos` reads.  `rules` is the raw
policy-name string (possibly the sentinels `-` or `:`). -/
structure InEra where
  rules : String
  offset_seconds_truncated : Int
  rules_delta_seconds_truncated : Int
  format : String
  until_year : Int
  until_month : Int
  until_day : Int
  until_seconds_truncated : Int
  until_time_suffix : String
deriving DecidableEq, Repr

/-- Output `ZoneRule` TypedDict of `inline_zone_info.py`. -/
structure ZoneRule where
  from_year : Int
  to_year : Int
  in_month : Int
  on_day_of_week : Int
  on_day_of_month : Int
  at_seconds : Int
  at_time_suffix : String
  delta_seconds : Int
  letter : String
deriving DecidableEq, Repr

/-- Output `ZonePolicy` TypedDict of `inline_zone_info.py`. -/
structure ZonePolicy where
  name : String
  rules : List ZoneRule
deriving DecidableEq, Repr

/-- The `Union[ZonePolicy, str]` type of the `zone_policy` field of the
output `ZoneEra`: either a raw string (the source only ever stores `-` or
`:` here) or a `ZonePolicy` record. -/
inductive ZonePolicyField where
  | str (s : String)
  | policy (p : ZonePolicy)
deriving DecidableEq, Repr

/-- Output `ZoneEra` TypedDict of `inline_zone_info.py`. -/
structure ZoneEra where
  offset_seconds : Int
  zone_policy : ZonePolicyField
  rules_delta_seconds : Int
  format : String
  until_year : Int
  until_month : Int
  until_day : Int
  until_seconds : Int
  until_time_suffix : String
deriving DecidableEq, Repr

/-- A value stored in the output `ZoneInfo` dict of `inline_zone_info.py`:
the dict literal at line 140 stores a string under `name` and a list of
eras under `eras`.  The `ZoneInfo` output is kept as a key-value dict so
that the presence or absence of keys is itself observable. -/
inductive ZoneInfoVal where
  | str (s : String)
  | eraList (es : List ZoneEra)
deriving DecidableEq, Repr

/-- Output `ZoneInfo` of `inline_zone_info.py`, as the literal dict. -/
abbrev ZoneInfo := List (String × ZoneInfoVal)

/-- The dict literal `{'name': zone_name, 'eras': zone_eras}` built at
line 140 of `inline_zone_info.py`. -/
def mkZoneInfo (zone_name : String) (zone_eras : List ZoneEra) : ZoneInfo :=
  [("name", ZoneInfoVal.str zone_name), ("eras", ZoneInfoVal.eraList zone_eras)]

/-- Modelled from the spec: `normalize_name` is imported by the generator
from the external compiler package (`acetimetools.transformer.transformer`)
and its code is not among this repository's sources.  Section 6 of the spec
describes the normalized key form as "lowercase, punctuation preserved,
path separators kept". -/
def normalize_name (s : String) : String :=
  String.mk (s.data.map Char.toLower)

/-- The rule dict built inside the loop of
`InlineZoneInfo._generate_policies` (lines 96-106): seven fields copied
verbatim, `at_seconds` taken from `at_seconds_truncated` and
`delta_seconds` from `delta_seconds_truncated`. -/
def generateRule (rule : InRule) : ZoneRule :=
  { from_year := rule.from_year
    to_year := rule.to_year
    in_month := rule.in_month
    on_day_of_week := rule.on_day_of_week
    on_day_of_month := rule.on_day_of_month
    at_seconds := rule.at_seconds_truncated
    at_time_suffix := rule.at_time_suffix
    delta_seconds := rule.delta_seconds_truncated
    letter := rule.letter }

/-- The loop of `InlineZoneInfo._generate_policies`, threading the
`self.zone_policies` dict through each iteration: each `(name, rules)`
entry stores `{'name': name, 'rules': policy_rules}` under
`normalize_name(name)`. -/
def generate_policies_from (zps : List (String × ZonePolicy)) :
    List (String × List InRule) → List (String × ZonePolicy)
  | [] => zps
  | (name, rules) :: rest =>
      generate_policies_from
        (dictInsert zps (normalize_name name)
          { name := name, rules := rules.map generateRule }) rest

/-- `InlineZoneInfo._generate_policies` starting from the empty
`self.zone_policies` dict of a freshly constructed object. -/
def generate_policies (policies_map : List (String × List InRule)) :
    List (String × ZonePolicy) :=
  generate_policies_from [] policies_map

/-- The era dict built at lines 128-138 of `inline_zone_info.py`, as a
function of the already-resolved `zone_policy` value. -/
def eraFields (era : InEra) (zp : ZonePolicyField) : ZoneEra :=
  { offset_seconds := era.offset_seconds_truncated
    zone_policy := zp
    rules_delta_seconds := era.rules_delta_seconds_truncated
    format := era.format
    until_year := era.until_year
    until_month := era.until_month
    until_day := era.until_day
    until_seconds := era.until_seconds_truncated
    until_time_suffix := era.until_time_suffix }

/-- The body of the era loop of `InlineZoneInfo._generate_infos`
(lines 118-138): keep the `rules` string itself when it is `-` or `:`,
otherwise look up `self.zone_policies[normalize_name(rules)]`; a missing
key raises `KeyError`, embedded as `Except.error` carrying the key. -/
def generateEra (zone_policies : List (String × ZonePolicy)) (era : InEra) :
    Except String ZoneEra :=
  if era.rules = "-" ∨ era.rules = ":" then
    Except.ok (eraFields era (ZonePolicyField.str era.rules))
  else
    match dictLookup zone_policies (normalize_name era.rules) with
    | some p => Except.ok (eraFields era (ZonePolicyField.policy p))
    | none => Except.error (normalize_name era.rules)

/-- The era loop of `InlineZoneInfo._generate_infos` for one zone: stops at
the first era whose policy lookup raises. -/
def generateEras (zone_policies : List (String × ZonePolicy)) :
    List InEra → Except String (List ZoneEra)
  | [] => Except.ok []
  | era :: rest =>
      match generateEra zone_policies era with
      | Except.error k => Except.error k
      | Except.ok z =>
          match generateEras zone_policies rest with
          | Except.error k => Except.error k
          | Except.ok zs => Except.ok (z :: zs)

/-- The zone loop of `InlineZoneInfo._generate_infos`, threading the
`self.zone_infos` dict: each fully-converted zone is stored under the raw
`zone_name` key (line 140); a `KeyError` propagates immediately, leaving
the zones stored so far in place. -/
def generate_infos_go (zone_policies : List (String × ZonePolicy))
    (acc : List (String × ZoneInfo)) :
    List (String × List InEra) → List (String × ZoneInfo) × Option String
  | [] => (acc, none)
  | (zone_name, eras) :: rest =>
      match generateEras zone_policies eras with
      | Except.error k => (acc, some k)
      | Except.ok zone_eras =>
          generate_infos_go zone_policies
            (dictInsert acc zone_name (mkZoneInfo zone_name zone_eras)) rest

/-- `InlineZoneInfo._generate_infos` starting from the empty
`self.zone_infos` dict of a freshly constructed object. -/
def generate_infos (zone_policies : List (String × ZonePolicy))
    (zones_map : List (String × List InEra)) :
    List (String × ZoneInfo) × Option String :=
  generate_infos_go zone_policies [] zones_map

/-- The state of an `InlineZoneInfo` object: the two input maps given to
the constructor and the two output maps it fills in. -/
structure InlineZoneInfo where
  zones_map : List (String × List InEra)
  policies_map : List (String × List InRule)
  zone_infos : List (String × ZoneInfo)
  zone_policies : List (String × ZonePolicy)
deriving DecidableEq, Repr

/-- `InlineZoneInfo.__init__`: store the two input maps and start with
empty `zone_infos` and `zone_policies` dicts. -/
def InlineZoneInfo.init (zones_map : List (String × List InEra))
    (policies_map : List (String × List InRule)) : InlineZoneInfo :=
  { zones_map := zones_map
    policies_map := policies_map
    zone_infos := []
    zone_policies := [] }

/-- `InlineZoneInfo.generate_zonedb`: run `_generate_policies` then
`_generate_infos` and return `(zone_infos, zone_policies)`.  The result
pairs the post-call object state with the returned value; a `KeyError`
escaping `_generate_infos` is the `Except.error` case, and the state then
still holds the fully built `zone_policies` and the partially built
`zone_infos`. -/
def InlineZoneInfo.generate_zonedb (s : InlineZoneInfo) :
    InlineZoneInfo ×
      Except String (List (String × ZoneInfo) × List (String × ZonePolicy)) :=
  let zps := generate_policies_from s.zone_policies s.policies_map
  let gi := generate_infos_go zps s.zone_infos s.zones_map
  let s2 := { s with zone_policies := zps, zone_infos := gi.1 }
  match gi.2 with
  | none => (s2, Except.ok (gi.1, zps))
  | some k => (s2, Except.error k)

theorem generate_policies_from_eq_append
    (zps : List (String × ZonePolicy)) (P : List (String × List InRule))
    (hd : ∀ p ∈ zps, ∀ nr ∈ P, p.1 ≠ normalize_name nr.1)
    (hnd : (P.map (fun nr => normalize_name nr.1)).Nodup) :
    generate_policies_from zps P =
      zps ++ P.map (fun nr =>
        (normalize_name nr.1,
          { name := nr.1, rules := nr.2.map generateRule : ZonePolicy })) := by
  induction P generalizing zps with
  | nil => simp [generate_policies_from]
  | cons nr rest ih =>
      obtain ⟨name, rules⟩ := nr
      rw [List.map_cons, List.nodup_cons] at hnd
      have hfresh : ∀ p ∈ zps, p.1 ≠ normalize_name name := by
        intro p hp
        exact hd p hp (name, rules) (List.mem_cons_self _ _)
      rw [generate_policies_from,
        dictInsert_of_not_mem zps (normalize_name name) _ hfresh]
      rw [ih]
      · simp [List.append_assoc]
      · intro p hp nr2 hnr2
        rcases List.mem_append.mp hp with h1 | h1
        · exact hd p h1 nr2 (List.mem_cons_of_mem _ hnr2)
        · have hpk : p = (normalize_name name,
              { name := name, rules := rules.map generateRule : ZonePolicy }) :=
            List.mem_singleton.mp h1
          rw [hpk]
          intro hcontra
          have hc2 : normalize_name name = normalize_name nr2.1 := hcontra
          apply hnd.1
          show normalize_name name ∈ List.map (fun nr => normalize_name nr.1) rest
          rw [hc2]
          exact List.mem_map.mpr ⟨nr2, hnr2, rfl⟩
      · exact hnd.2

theorem generate_policies_lookup (P : List (String × List InRule))
    (hnd : (P.map (fun nr => normalize_name nr.1)).Nodup)
    (n : String) (rs : List InRule) (hm : (n, rs) ∈ P) :
    dictLookup (generate_policies P) (normalize_name n) =
      some { name := n, rules := rs.map generateRule } := by
  rw [generate_policies, generate_policies_from_eq_append [] P (by simp) hnd,
    List.nil_append]
  apply dictLookup_eq_some_of_mem_nodup
  · have hkeys : (P.map (fun nr =>
        (normalize_name nr.1,
          { name := nr.1, rules := nr.2.map generateRule : ZonePolicy }))).map
          Prod.fst = P.map (fun nr => normalize_name nr.1) := by
      rw [List.map_map]
      rfl
    rw [hkeys]
    exact hnd
  · exact List.mem_map.mpr ⟨(n, rs), hm, rfl⟩

theorem generate_policies_from_keys (P : List (String × List InRule))
    (zps : List (String × ZonePolicy)) (k : String) :
    k ∈ (generate_policies_from zps P).map Prod.fst ↔
      k ∈ zps.map Prod.fst ∨ ∃ nr ∈ P, normalize_name nr.1 = k := by
  induction P generalizing zps with
  | nil => simp [generate_policies_from]
  | cons nr rest ih =>
      obtain ⟨name, rules⟩ := nr
      rw [generate_policies_from, ih, mem_keys_dictInsert]
      constructor
      · rintro ((h | h) | ⟨nr2, h2, h3⟩)
        · exact Or.inl h
        · exact Or.inr ⟨(name, rules), List.mem_cons_self _ _, h.symm⟩
        · exact Or.inr ⟨nr2, List.mem_cons_of_mem _ h2, h3⟩
      · rintro (h | ⟨nr2, h2, h3⟩)
        · exact Or.inl (Or.inl h)
        · rcases List.mem_cons.mp h2 with h4 | h4
          · exact Or.inl (Or.inr (by rw [← h3, h4]))
          · exact Or.inr ⟨nr2, h4, h3⟩

theorem generate_policies_lookup_isSome (P : List (String × List InRule))
    (k : String) :
    (dictLookup (generate_policies P) k).isSome = true ↔
      ∃ nr ∈ P, normalize_name nr.1 = k := by
  rw [dictLookup_isSome_iff, generate_policies, generate_policies_from_keys]
  simp

theorem generateEra_sentinel (zps : List (String × ZonePolicy)) (era : InEra)
    (h : era.rules = "-" ∨ era.rules = ":") :
    generateEra zps era =
      Except.ok (eraFields era (ZonePolicyField.str era.rules)) := by
  rw [generateEra, if_pos h]

theorem generateEra_policy (zps : List (String × ZonePolicy)) (era : InEra)
    (p : ZonePolicy) (h : ¬ (era.rules = "-" ∨ era.rules = ":"))
    (hp : dictLookup zps (normalize_name era.rules) = some p) :
    generateEra zps era =
      Except.ok (eraFields era (ZonePolicyField.policy p)) := by
  rw [generateEra, if_neg h, hp]

theorem generateEra_missing (zps : List (String × ZonePolicy)) (era : InEra)
    (h : ¬ (era.rules = "-" ∨ era.rules = ":"))
    (hp : dictLookup zps (normalize_name era.rules) = none) :
    generateEra zps era = Except.error (normalize_name era.rules) := by
  rw [generateEra, if_neg h, hp]

theorem generateEra_ok_cases (zps : List (String × ZonePolicy)) (era : InEra)
    (z : ZoneEra) (hok : generateEra zps era = Except.ok z) :
    ((era.rules = "-" ∨ era.rules = ":") ∧
      z = eraFields era (ZonePolicyField.str era.rules)) ∨
    (era.rules ≠ "-" ∧ era.rules ≠ ":" ∧
      ∃ p, dictLookup zps (normalize_name era.rules) = some p ∧
        z = eraFields era (ZonePolicyField.policy p)) := by
  rw [generateEra] at hok
  by_cases h : era.rules = "-" ∨ era.rules = ":"
  · rw [if_pos h] at hok
    injection hok with hz
    exact Or.inl ⟨h, hz.symm⟩
  · rw [if_neg h] at hok
    push_neg at h
    cases hp : dictLookup zps (normalize_name era.rules) with
    | none => rw [hp] at hok; cases hok
    | some p =>
        rw [hp] at hok
        injection hok with hz
        exact Or.inr ⟨h.1, h.2, p, rfl, hz.symm⟩

theorem generateEra_ok_iff (zps : List (String × ZonePolicy)) (era : InEra) :
    (∃ z, generateEra zps era = Except.ok z) ↔
      (era.rules = "-" ∨ era.rules = ":" ∨
        (dictLookup zps (normalize_name era.rules)).isSome = true) := by
  by_cases h : era.rules = "-" ∨ era.rules = ":"
  · constructor
    · intro _
      rcases h with h1 | h1
      · exact Or.inl h1
      · exact Or.inr (Or.inl h1)
    · intro _
      exact ⟨_, generateEra_sentinel zps era h⟩
  · push_neg at h
    cases hp : dictLookup zps (normalize_name era.rules) with
    | none =>
        constructor
        · rintro ⟨z, hz⟩
          rw [generateEra_missing zps era (not_or.mpr h) hp] at hz
          cases hz
        · rintro (h1 | h1 | h1)
          · exact absurd h1 h.1
          · exact absurd h1 h.2
          · simp at h1
    | some p =>
        constructor
        · intro _
          exact Or.inr (Or.inr rfl)
        · intro _
          exact ⟨_, generateEra_policy zps era p (not_or.mpr h) hp⟩

theorem generateEra_fields (zps : List (String × ZonePolicy)) (era : InEra)
    (z : ZoneEra) (hok : generateEra zps era = Except.ok z) :
    z.offset_seconds = era.offset_seconds_truncated ∧
    z.rules_delta_seconds = era.rules_delta_seconds_truncated ∧
    z.format = era.format ∧
    z.until_year = era.until_year ∧
    z.until_month = era.until_month ∧
    z.until_day = era.until_day ∧
    z.until_seconds = era.until_seconds_truncated ∧
    z.until_time_suffix = era.until_time_suffix := by
  rcases generateEra_ok_cases zps era z hok with ⟨_, rfl⟩ | ⟨_, _, p, _, rfl⟩ <;>
    simp [eraFields]

theorem generateEras_ok_pointwise (zps : List (String × ZonePolicy))
    (es : List InEra) (zs : List ZoneEra)
    (hok : generateEras zps es = Except.ok zs) :
    zs.length = es.length ∧
      ∀ i (h1 : i < es.length) (h2 : i < zs.length),
        generateEra zps (es.get ⟨i, h1⟩) = Except.ok (zs.get ⟨i, h2⟩) := by
  induction es generalizing zs with
  | nil =>
      rw [generateEras] at hok
      cases hok
      exact ⟨rfl, fun i h1 _ => absurd h1 (Nat.not_lt_zero i)⟩
  | cons e rest ih =>
      rw [generateEras] at hok
      cases he : generateEra zps e with
      | error k => rw [he] at hok; cases hok
      | ok z =>
          rw [he] at hok
          cases hr : generateEras zps rest with
          | error k => rw [hr] at hok; cases hok
          | ok ztail =>
              rw [hr] at hok
              cases hok
              obtain ⟨hlen, hget⟩ := ih ztail hr
              refine ⟨by simp [hlen], ?_⟩
              intro i h1 h2
              cases i with
              | zero => simpa using he
              | succ j =>
                  have hj1 : j < rest.length := Nat.lt_of_succ_lt_succ h1
                  have hj2 : j < ztail.length := Nat.lt_of_succ_lt_succ h2
                  simpa using hget j hj1 hj2

theorem generateEras_ok_iff (zps : List (String × ZonePolicy))
    (es : List InEra) :
    (∃ zs, generateEras zps es = Except.ok zs) ↔
      ∀ e ∈ es, ∃ z, generateEra zps e = Except.ok z := by
  induction es with
  | nil => simp [generateEras]
  | cons e rest ih =>
      rw [generateEras]
      constructor
      · rintro ⟨zs, hzs⟩
        cases he : generateEra zps e with
        | error k => rw [he] at hzs; cases hzs
        | ok z =>
            rw [he] at hzs
            cases hr : generateEras zps rest with
            | error k => rw [hr] at hzs; cases hzs
            | ok ztail =>
                intro e2 he2
                rcases List.mem_cons.mp he2 with h2 | h2
                · exact ⟨z, h2 ▸ he⟩
                · exact (ih.mp ⟨ztail, hr⟩) e2 h2
      · intro hall
        obtain ⟨z, hz⟩ := hall e (List.mem_cons_self _ _)
        obtain ⟨ztail, hztail⟩ :=
          ih.mpr (fun e2 h2 => hall e2 (List.mem_cons_of_mem _ h2))
        exact ⟨z :: ztail, by rw [hz, hztail]⟩

theorem generate_infos_go_success_iff (zps : List (String × ZonePolicy))
    (zones : List (String × List InEra)) (acc : List (String × ZoneInfo)) :
    (generate_infos_go zps acc zones).2 = none ↔
      ∀ ze ∈ zones, ∃ zs, generateEras zps ze.2 = Except.ok zs := by
  induction zones generalizing acc with
  | nil => simp [generate_infos_go]
  | cons ze rest ih =>
      obtain ⟨zone_name, eras⟩ := ze
      rw [generate_infos_go]
      cases he : generateEras zps eras with
      | error k =>
          simp only []
          constructor
          · intro hcontra
            cases hcontra
          · intro hall
            obtain ⟨zs, hzs⟩ := hall (zone_name, eras) (List.mem_cons_self _ _)
            rw [he] at hzs
            cases hzs
      | ok zone_eras =>
          rw [ih]
          constructor
          · intro hall ze2 hze2
            rcases List.mem_cons.mp hze2 with h2 | h2
            · exact ⟨zone_eras, h2 ▸ he⟩
            · exact hall ze2 h2
          · intro hall ze2 hze2
            exact hall ze2 (List.mem_cons_of_mem _ hze2)

theorem generate_infos_go_mem (zps : List (String × ZonePolicy))
    (zones : List (String × List InEra)) (acc : List (String × ZoneInfo))
    (p : String × ZoneInfo) (hp : p ∈ (generate_infos_go zps acc zones).1) :
    p ∈ acc ∨ ∃ es zs, (p.1, es) ∈ zones ∧
      generateEras zps es = Except.ok zs ∧ p.2 = mkZoneInfo p.1 zs := by
  induction zones generalizing acc with
  | nil => exact Or.inl hp
  | cons ze rest ih =>
      obtain ⟨zone_name, eras⟩ := ze
      rw [generate_infos_go] at hp
      cases he : generateEras zps eras with
      | error k =>
          rw [he] at hp
          exact Or.inl hp
      | ok zone_eras =>
          rw [he] at hp
          rcases ih _ hp with h1 | ⟨es, zs, h2, h3, h4⟩
          · rcases mem_dictInsert _ _ _ _ h1 with h5 | h5
            · exact Or.inl h5
            · refine Or.inr ⟨eras, zone_eras, ?_, he, ?_⟩
              · rw [h5]
                exact List.mem_cons_self _ _
              · rw [h5]
          · exact Or.inr ⟨es, zs, List.mem_cons_of_mem _ h2, h3, h4⟩

theorem generate_infos_go_lookup_frozen (zps : List (String × ZonePolicy))
    (zones : List (String × List InEra)) (acc : List (String × ZoneInfo))
    (x : String) (hx : ∀ ze ∈ zones, ze.1 ≠ x) :
    dictLookup (generate_infos_go zps acc zones).1 x = dictLookup acc x := by
  induction zones generalizing acc with
  | nil => rfl
  | cons ze rest ih =>
      obtain ⟨zone_name, eras⟩ := ze
      rw [generate_infos_go]
      cases he : generateEras zps eras with
      | error k => rfl
      | ok zone_eras =>
          rw [ih _ (fun ze2 h2 => hx ze2 (List.mem_cons_of_mem _ h2))]
          exact dictLookup_dictInsert_ne _ _ _ _
            (fun hc => hx (zone_name, eras) (List.mem_cons_self _ _) hc.symm)

theorem generate_infos_go_lookup (zps : List (String × ZonePolicy))
    (zones : List (String × List InEra)) (acc : List (String × ZoneInfo))
    (hnd : (zones.map Prod.fst).Nodup)
    (hdisj : ∀ p ∈ acc, ∀ ze ∈ zones, p.1 ≠ ze.1)
    (hsucc : (generate_infos_go zps acc zones).2 = none)
    (z : String) (es : List InEra) (hm : (z, es) ∈ zones) :
    ∃ zs, generateEras zps es = Except.ok zs ∧
      dictLookup (generate_infos_go zps acc zones).1 z =
        some (mkZoneInfo z zs) := by
  induction zones generalizing acc with
  | nil => cases hm
  | cons ze rest ih =>
      obtain ⟨zone_name, eras⟩ := ze
      rw [List.map_cons, List.nodup_cons] at hnd
      rw [generate_infos_go] at hsucc ⊢
      cases he : generateEras zps eras with
      | error k =>
          rw [he] at hsucc
          cases hsucc
      | ok zone_eras =>
          rw [he] at hsucc
          have hfresh : ∀ p ∈ acc, p.1 ≠ zone_name := by
            intro p hp
            exact hdisj p hp (zone_name, eras) (List.mem_cons_self _ _)
          rcases List.mem_cons.mp hm with h1 | h1
          · have hz : z = zone_name := congrArg Prod.fst h1
            have hes : es = eras := congrArg Prod.snd h1
            rw [hz, hes]
            refine ⟨zone_eras, he, ?_⟩
            have hrest : ∀ ze2 ∈ rest, ze2.1 ≠ zone_name := by
              intro ze2 h2 hc
              apply hnd.1
              show zone_name ∈ List.map Prod.fst rest
              rw [← hc]
              exact List.mem_map.mpr ⟨ze2, h2, rfl⟩
            rw [generate_infos_go_lookup_frozen zps rest _ zone_name hrest,
              dictInsert_of_not_mem acc zone_name _ hfresh,
              dictLookup_append_of_not_mem acc _ zone_name hfresh,
              dictLookup_cons]
            simp
          · refine ih _ hnd.2 ?_ hsucc h1
            intro p hp ze2 h2
            rcases mem_dictInsert _ _ _ _ hp with h3 | h3
            · exact hdisj p h3 ze2 (List.mem_cons_of_mem _ h2)
            · rw [h3]
              intro hc
              have hc2 : zone_name = ze2.1 := hc
              apply hnd.1
              show zone_name ∈ List.map Prod.fst rest
              rw [hc2]
              exact List.mem_map.mpr ⟨ze2, h2, rfl⟩

theorem generate_infos_go_keys_mono (zps : List (String × ZonePolicy))
    (zones : List (String × List InEra)) (acc : List (String × ZoneInfo))
    (x : String) (hx : x ∈ acc.map Prod.fst) :
    x ∈ (generate_infos_go zps acc zones).1.map Prod.fst := by
  induction zones generalizing acc with
  | nil => exact hx
  | cons ze rest ih =>
      obtain ⟨zone_name, eras⟩ := ze
      rw [generate_infos_go]
      cases he : generateEras zps eras with
      | error k => exact hx
      | ok zone_eras =>
          exact ih _ ((mem_keys_dictInsert _ _ _ _).mpr (Or.inl hx))

theorem generate_infos_go_keys (zps : List (String × ZonePolicy))
    (zones : List (String × List InEra)) (acc : List (String × ZoneInfo))
    (hsucc : (generate_infos_go zps acc zones).2 = none)
    (z : String) (es : List InEra) (hm : (z, es) ∈ zones) :
    z ∈ (generate_infos_go zps acc zones).1.map Prod.fst := by
  induction zones generalizing acc with
  | nil => cases hm
  | cons ze rest ih =>
      obtain ⟨zone_name, eras⟩ := ze
      rw [generate_infos_go] at hsucc ⊢
      cases he : generateEras zps eras with
      | error k =>
          rw [he] at hsucc
          cases hsucc
      | ok zone_eras =>
          rw [he] at hsucc
          rcases List.mem_cons.mp hm with h1 | h1
          · have hz : z = zone_name := congrArg Prod.fst h1
            apply generate_infos_go_keys_mono
            exact (mem_keys_dictInsert _ _ _ _).mpr (Or.inr hz)
          · exact ih _ hsucc h1

theorem generate_zonedb_fst (s : InlineZoneInfo) :
    (s.generate_zonedb).1 =
      { s with
        zone_policies := generate_policies_from s.zone_policies s.policies_map
        zone_infos := (generate_infos_go
          (generate_policies_from s.zone_policies s.policies_map)
          s.zone_infos s.zones_map).1 } := by
  rw [InlineZoneInfo.generate_zonedb]
  cases hgi : (generate_infos_go
      (generate_policies_from s.zone_policies s.policies_map)
      s.zone_infos s.zones_map).2 with
  | none => rfl
  | some k => rfl

theorem generate_zonedb_snd_ok_iff (s : InlineZoneInfo)
    (infos : List (String × ZoneInfo)) (zps : List (String × ZonePolicy)) :
    (s.generate_zonedb).2 = Except.ok (infos, zps) ↔
      zps = generate_policies_from s.zone_policies s.policies_map ∧
      generate_infos_go (generate_policies_from s.zone_policies s.policies_map)
        s.zone_infos s.zones_map = (infos, none) := by
  rw [InlineZoneInfo.generate_zonedb]
  cases hgi : (generate_infos_go
      (generate_policies_from s.zone_policies s.policies_map)
      s.zone_infos s.zones_map).2 with
  | none =>
      constructor
      · intro h
        injection h with h2
        have h3 : (generate_infos_go
            (generate_policies_from s.zone_policies s.policies_map)
            s.zone_infos s.zones_map).1 = infos := congrArg Prod.fst h2
        have h4 : generate_policies_from s.zone_policies s.policies_map = zps :=
          congrArg Prod.snd h2
        exact ⟨h4.symm, Prod.ext_iff.mpr ⟨h3, hgi⟩⟩
      · rintro ⟨h4, h5⟩
        show Except.ok _ = Except.ok (_, _)
        rw [h5, h4]
  | some k =>
      constructor
      · intro h
        cases h
      · rintro ⟨h4, h5⟩
        rw [h5] at hgi
        cases hgi

theorem generate_zonedb_isOk_iff (s : InlineZoneInfo) :
    ((s.generate_zonedb).2.isOk = true) ↔
      (generate_infos_go (generate_policies_from s.zone_policies s.policies_map)
        s.zone_infos s.zones_map).2 = none := by
  rw [InlineZoneInfo.generate_zonedb]
  cases hgi : (generate_infos_go
      (generate_policies_from s.zone_policies s.policies_map)
      s.zone_infos s.zones_map).2 with
  | none => simp [Except.isOk, Except.toBool]
  | some k => simp [Except.isOk, Except.toBool]

/-- Modelled from the spec: `ActiveTransition` (section 3), the record
returned by the transition engine, whose code lives outside `src/`:
start/until instants in UT epoch seconds, `total_offset = utc_offset +
dst_offset`, the resolved abbreviation and the fold hint. -/
structure ActiveTransition where
  start_instant : Int
  until_instant : Int
  total_offset : Int
  utc_offset : Int
  dst_offset : Int
  abbreviation : String
  fold : Nat
deriving DecidableEq, Repr

/-- Modelled from the spec: the calendar primitive `days_from_epoch`
(section 4.1), a pure proleptic-Gregorian date to day-count conversion,
here with the Unix epoch 1970-01-01 as day 0 (section 8 fixes the epoch
to the Unix epoch for the concrete scenarios). -/
def days_from_epoch (y m d : Int) : Int :=
  let yAdj := if m ≤ 2 then y - 1 else y
  let era := yAdj / 400
  let yoe := yAdj - era * 400
  let mp := (m + 9) % 12
  let doy := (153 * mp + 2) / 5 + d - 1
  let doe := yoe * 365 + yoe / 4 - yoe / 100 + doy
  era * 146097 + doe - 719468

/-- Naive local date-time as a signed count of seconds from the epoch,
ignoring any UTC offset. -/
def local_seconds (y m d H M S : Int) : Int :=
  days_from_epoch y m d * 86400 + H * 3600 + M * 60 + S

/-- Modelled from the spec: the claim predicate of `info_for_local`
(section 4.5) — a transition claims the local time `L` if subtracting its
`total_offset` lands inside its `[start, until)` window. -/
def claimants (ts : List ActiveTransition) (L : Int) :
    List ActiveTransition :=
  ts.filter (fun t => decide (t.start_instant ≤ L - t.total_offset) &&
    decide (L - t.total_offset < t.until_instant))

/-- Modelled from the spec: `info_for_local` resolution (section 4.5) on an
already-built transition list, with the local time given as seconds.  A
unique claimant is returned as-is; two claimants (fall-back overlap)
return the earlier for `fold = 0` and the later for `fold = 1`; zero
claimants (spring-forward gap) select the transition immediately before
the gap for `fold = 0` and immediately after for `fold = 1`. -/
def info_for_local_seconds (ts : List ActiveTransition) (L : Int)
    (fold : Nat) : Option ActiveTransition :=
  match claimants ts L with
  | [] =>
      if fold = 0 then
        (ts.filter
          (fun t => decide (t.until_instant ≤ L - t.total_offset))).getLast?
      else
        (ts.filter
          (fun t => decide (L - t.total_offset < t.start_instant))).head?
  | [t] => some t
  | [t1, t2] => if fold = 0 then some t1 else some t2
  | _ => none

/-- Modelled from the spec: `info_for_local(Z, y,m,d,H,M,S, fold)`
(sections 4.5 and 6) against a prebuilt transition list. -/
def info_for_local (ts : List ActiveTransition) (y m d H M S : Int)
    (fold : Nat) : Option ActiveTransition :=
  info_for_local_seconds ts (local_seconds y m d H M S) fold

/-- The epoch second a local query resolves to: the local seconds minus
the total offset of the transition that answered the query. -/
def epoch_for_local (ts : List ActiveTransition) (y m d H M S : Int)
    (fold : Nat) : Option Int :=
  (info_for_local ts y m d H M S fold).map
    (fun t => local_seconds y m d H M S - t.total_offset)

/-- Modelled from the spec: the America/Los_Angeles transition in effect
before the year-2000 spring-forward.  The transition instants are fixed by
the repository's tests (`src/tests/test_acetz.py`): spring forward at
AceTime epoch 7984800 = Unix 954669600, fall back at AceTime epoch
26125200 = Unix 972810000. -/
def laPst1 : ActiveTransition :=
  { start_instant := 0
    until_instant := 954669600
    total_offset := -28800
    utc_offset := -28800
    dst_offset := 0
    abbreviation := "PST"
    fold := 0 }

/-- Modelled from the spec: the America/Los_Angeles DST transition of
2000 (PDT), Unix 954669600 to 972810000. -/
def laPdt : ActiveTransition :=
  { start_instant := 954669600
    until_instant := 972810000
    total_offset := -25200
    utc_offset := -28800
    dst_offset := 3600
    abbreviation := "PDT"
    fold := 0 }

/-- Modelled from the spec: the America/Los_Angeles standard-time
transition after the year-2000 fall-back, starting at Unix 972810000. -/
def laPst2 : ActiveTransition :=
  { start_instant := 972810000
    until_instant := 2000000000
    total_offset := -28800
    utc_offset := -28800
    dst_offset := 0
    abbreviation := "PST"
    fold := 1 }

/-- Modelled from the spec: the transition list for America/Los_Angeles
around the year 2000 as the builder of section 4.4 would emit it. -/
def LA_2000 : List ActiveTransition := [laPst1, laPdt, laPst2]

/-- Modelled from the spec: a zone-registry entry (sections 4.4 and 6):
the display name, the optional link target of an alias, and the
transition data of a canonical zone. -/
structure ZoneDbEntry where
  name : String
  link_to : Option String
  transitions : List ActiveTransition
deriving DecidableEq, Repr

/-- Modelled from the spec: alias resolution (section 4.4 step 1 and
section 9): a link entry resolves to the registry entry of its target, a
canonical entry resolves to itself. -/
def canonical_entry (registry : List (String × ZoneDbEntry))
    (e : ZoneDbEntry) : Option ZoneDbEntry :=
  match e.link_to with
  | none => some e
  | some target => dictLookup registry target

/-- Modelled from the spec: the zone name observability of section 6 (and
`tzfullname` of the repository's tests): the display name of the entry, or
the canonical name of its link target when `follow_link` is true. -/
def tzfullname (registry : List (String × ZoneDbEntry))
    (zone_name : String) (follow_link : Bool) : Option String :=
  match dictLookup registry zone_name with
  | none => none
  | some e =>
      if follow_link then (canonical_entry registry e).map ZoneDbEntry.name
      else some e.name

/-- Modelled from the spec: `info_for_epoch(Z, s)` (section 4.5): resolve
the zone (following a link), then find the unique transition whose
`[start, until)` window contains `s`. -/
def info_for_epoch (registry : List (String × ZoneDbEntry))
    (zone_name : String) (s : Int) : Option ActiveTransition :=
  match dictLookup registry zone_name with
  | none => none
  | some e =>
      match canonical_entry registry e with
      | none => none
      | some c =>
          c.transitions.find? (fun t => decide (t.start_instant ≤ s) &&
            decide (s < t.until_instant))

theorem list_get_map {α β : Type} (f : α → β) (l : List α) (i : Nat)
    (h1 : i < l.length) (h2 : i < (l.map f).length) :
    (l.map f).get ⟨i, h2⟩ = f (l.get ⟨i, h1⟩) := by
  induction l generalizing i with
  | nil => cases h1
  | cons a t ih =>
      cases i with
      | zero => rfl
      | succ j =>
          exact ih j (Nat.lt_of_succ_lt_succ h1) (Nat.lt_of_succ_lt_succ h2)

/-- **C1.** For every era emitted by `InlineZoneInfo.generate_zonedb`, the
generated `ZoneEra`'s `zone_policy` field is exactly the input era's
`rules` string when that string is `-` or `:`, and otherwise is the
`ZonePolicy` record stored in the generated policies map under
`normalize_name` of that string; the two guards are mutually exclusive and
no other value ever appears in `zone_policy`. -/
theorem c1_zone_policy_cases
    (zones : List (String × List InEra))
    (policies : List (String × List InRule))
    (infos : List (String × ZoneInfo)) (zps : List (String × ZonePolicy))
    (hok : ((InlineZoneInfo.init zones policies).generate_zonedb).2 =
      Except.ok (infos, zps))
    (z : String) (info : ZoneInfo) (hmem : (z, info) ∈ infos) :
    ∃ es zeras, (z, es) ∈ zones ∧ info = mkZoneInfo z zeras ∧
      zeras.length = es.length ∧
      ∀ i (hi : i < es.length) (hi2 : i < zeras.length),
        (((es.get ⟨i, hi⟩).rules = "-" ∨ (es.get ⟨i, hi⟩).rules = ":") ∧
          (zeras.get ⟨i, hi2⟩).zone_policy =
            ZonePolicyField.str (es.get ⟨i, hi⟩).rules) ∨
        ((es.get ⟨i, hi⟩).rules ≠ "-" ∧ (es.get ⟨i, hi⟩).rules ≠ ":" ∧
          ∃ p, dictLookup zps (normalize_name (es.get ⟨i, hi⟩).rules) =
              some p ∧
            (zeras.get ⟨i, hi2⟩).zone_policy = ZonePolicyField.policy p) := by
  rw [generate_zonedb_snd_ok_iff] at hok
  obtain ⟨hzps, hgi⟩ := hok
  have hmem2 : (z, info) ∈ (generate_infos_go
      (generate_policies_from
        (InlineZoneInfo.init zones policies).zone_policies
        (InlineZoneInfo.init zones policies).policies_map)
      (InlineZoneInfo.init zones policies).zone_infos
      (InlineZoneInfo.init zones policies).zones_map).1 := by
    rw [hgi]
    exact hmem
  rcases generate_infos_go_mem _ _ _ _ hmem2 with h1 | ⟨es, zs, h2, h3, h4⟩
  · cases h1
  · refine ⟨es, zs, h2, h4, (generateEras_ok_pointwise _ _ _ h3).1, ?_⟩
    intro i hi hi2
    have he := (generateEras_ok_pointwise _ _ _ h3).2 i hi hi2
    rcases generateEra_ok_cases _ _ _ he with
      ⟨hs, hval⟩ | ⟨hne1, hne2, p, hp, hval⟩
    · exact Or.inl ⟨hs, by rw [hval]; rfl⟩
    · refine Or.inr ⟨hne1, hne2, p, ?_, by rw [hval]; rfl⟩
      rw [hzps]
      exact hp

/-- A sample rule for the witness inputs, shaped like the compiler output
for the US policy. -/
def usRule : InRule :=
  { from_year := 1987
    to_year := 2006
    in_month := 4
    on_day_of_week := 7
    on_day_of_month := 1
    at_seconds_truncated := 7200
    at_time_suffix := "w"
    delta_seconds_truncated := 3600
    letter := "D" }

/-- A sample era that is standard-only (`rules = "-"`). -/
def wEra0 : InEra :=
  { rules := "-"
    offset_seconds_truncated := -28800
    rules_delta_seconds_truncated := 0
    format := "PST"
    until_year := 1987
    until_month := 1
    until_day := 1
    until_seconds_truncated := 0
    until_time_suffix := "w" }

/-- A sample era referencing the US policy. -/
def wEra1 : InEra :=
  { rules := "US"
    offset_seconds_truncated := -28800
    rules_delta_seconds_truncated := 0
    format := "P%sT"
    until_year := 10000
    until_month := 1
    until_day := 1
    until_seconds_truncated := 0
    until_time_suffix := "w" }

/-- Sample zones map for the witnesses. -/
def wZones : List (String × List InEra) :=
  [("America/Los_Angeles", [wEra0, wEra1])]

/-- Sample policies map for the witnesses. -/
def wPolicies : List (String × List InRule) := [("US", [usRule])]

/-- The value returned by `generate_zonedb` on the sample input. -/
def wResult :
    Except String (List (String × ZoneInfo) × List (String × ZonePolicy)) :=
  ((InlineZoneInfo.init wZones wPolicies).generate_zonedb).2

/-- The zone-infos map of the sample run. -/
def wInfos : List (String × ZoneInfo) :=
  match wResult with
  | Except.ok p => p.1
  | Except.error _ => []

/-- The zone-policies map of the sample run. -/
def wZps : List (String × ZonePolicy) :=
  match wResult with
  | Except.ok p => p.2
  | Except.error _ => []

/-- The generated info of the sample zone. -/
def wInfo : ZoneInfo :=
  match dictLookup wInfos "America/Los_Angeles" with
  | some i => i
  | none => []

/-- Witness for C1 at the sample input. -/
theorem c1_zone_policy_cases_witness :
    ∃ es zeras, ("America/Los_Angeles", es) ∈ wZones ∧
      wInfo = mkZoneInfo "America/Los_Angeles" zeras ∧
      zeras.length = es.length ∧
      ∀ i (hi : i < es.length) (hi2 : i < zeras.length),
        (((es.get ⟨i, hi⟩).rules = "-" ∨ (es.get ⟨i, hi⟩).rules = ":") ∧
          (zeras.get ⟨i, hi2⟩).zone_policy =
            ZonePolicyField.str (es.get ⟨i, hi⟩).rules) ∨
        ((es.get ⟨i, hi⟩).rules ≠ "-" ∧ (es.get ⟨i, hi⟩).rules ≠ ":" ∧
          ∃ p, dictLookup wZps (normalize_name (es.get ⟨i, hi⟩).rules) =
              some p ∧
            (zeras.get ⟨i, hi2⟩).zone_policy = ZonePolicyField.policy p) :=
  c1_zone_policy_cases wZones wPolicies wInfos wZps (by rfl)
    "America/Los_Angeles" wInfo (by decide)

/-- **C2** counterexample.  The code stores each generated `ZoneInfo`
under the raw `zone_name` key (line 140 of `inline_zone_info.py`), not
under `normalize_name(zone_name)`: running the generator on a single zone
named `America/Los_Angeles` (with spec-modelled `normalize_name`, section
6's lowercase form) yields a zone-infos map with no entry under the
normalized key. -/
theorem c2_counterexample :
    ((InlineZoneInfo.init [("America/Los_Angeles", [])] []).generate_zonedb).2 =
      Except.ok ([("America/Los_Angeles",
        mkZoneInfo "America/Los_Angeles" [])], []) ∧
    dictLookup [("America/Los_Angeles", mkZoneInfo "America/Los_Angeles" [])]
      (normalize_name "America/Los_Angeles") = none := by
  exact ⟨rfl, rfl⟩

/-- **C2** (amended).  The generated `zone_policies` map has an entry under
`normalize_name(n)` for every policy name `n` of `policies_map`, while the
generated `zone_infos` map is keyed by the raw zone name: it has an entry
under `z` itself (not under `normalize_name(z)`) for every zone name `z`
of `zones_map`. -/
theorem c2_map_keys
    (zones : List (String × List InEra))
    (policies : List (String × List InRule))
    (infos : List (String × ZoneInfo)) (zps : List (String × ZonePolicy))
    (hok : ((InlineZoneInfo.init zones policies).generate_zonedb).2 =
      Except.ok (infos, zps)) :
    (∀ n rs, (n, rs) ∈ policies →
      (dictLookup zps (normalize_name n)).isSome = true) ∧
    (∀ z es, (z, es) ∈ zones → (dictLookup infos z).isSome = true) := by
  rw [generate_zonedb_snd_ok_iff] at hok
  obtain ⟨hzps, hgi⟩ := hok
  simp only [InlineZoneInfo.init] at hzps hgi
  constructor
  · intro n rs hm
    rw [hzps]
    exact (generate_policies_lookup_isSome policies (normalize_name n)).mpr
      ⟨(n, rs), hm, rfl⟩
  · intro z es hm
    have hkey := generate_infos_go_keys (generate_policies_from [] policies)
      zones [] (by rw [hgi]) z es hm
    rw [hgi] at hkey
    exact (dictLookup_isSome_iff infos z).mpr hkey

/-- Witness for the amended C2 at the sample input. -/
theorem c2_map_keys_witness :
    (∀ n rs, (n, rs) ∈ wPolicies →
      (dictLookup wZps (normalize_name n)).isSome = true) ∧
    (∀ z es, (z, es) ∈ wZones → (dictLookup wInfos z).isSome = true) :=
  c2_map_keys wZones wPolicies wInfos wZps (by rfl)

/-- **C3.** For every `(name, rules)` entry of `policies_map` (whose
normalized names are distinct, as for any compiler-produced map), the
generated `ZonePolicy` under `normalize_name(name)` contains exactly one
output `ZoneRule` per input rule in input order, with `from_year`,
`to_year`, `in_month`, `on_day_of_week`, `on_day_of_month`,
`at_time_suffix` and `letter` copied verbatim, `at_seconds` equal to the
input's `at_seconds_truncated`, and `delta_seconds` equal to the input's
`delta_seconds_truncated`. -/
theorem c3_policy_rules
    (policies : List (String × List InRule))
    (hnd : (policies.map (fun nr => normalize_name nr.1)).Nodup)
    (n : String) (rs : List InRule) (hm : (n, rs) ∈ policies) :
    ∃ zp, dictLookup (generate_policies policies) (normalize_name n) =
        some zp ∧
      zp.rules.length = rs.length ∧
      ∀ i (hi : i < rs.length) (hi2 : i < zp.rules.length),
        (zp.rules.get ⟨i, hi2⟩).from_year = (rs.get ⟨i, hi⟩).from_year ∧
        (zp.rules.get ⟨i, hi2⟩).to_year = (rs.get ⟨i, hi⟩).to_year ∧
        (zp.rules.get ⟨i, hi2⟩).in_month = (rs.get ⟨i, hi⟩).in_month ∧
        (zp.rules.get ⟨i, hi2⟩).on_day_of_week =
          (rs.get ⟨i, hi⟩).on_day_of_week ∧
        (zp.rules.get ⟨i, hi2⟩).on_day_of_month =
          (rs.get ⟨i, hi⟩).on_day_of_month ∧
        (zp.rules.get ⟨i, hi2⟩).at_seconds =
          (rs.get ⟨i, hi⟩).at_seconds_truncated ∧
        (zp.rules.get ⟨i, hi2⟩).at_time_suffix =
          (rs.get ⟨i, hi⟩).at_time_suffix ∧
        (zp.rules.get ⟨i, hi2⟩).delta_seconds =
          (rs.get ⟨i, hi⟩).delta_seconds_truncated ∧
        (zp.rules.get ⟨i, hi2⟩).letter = (rs.get ⟨i, hi⟩).letter := by
  refine ⟨{ name := n, rules := rs.map generateRule },
    generate_policies_lookup policies hnd n rs hm, by simp, ?_⟩
  intro i hi hi2
  have hg2 : ({ name := n, rules := rs.map generateRule } :
      ZonePolicy).rules.get ⟨i, hi2⟩ = generateRule (rs.get ⟨i, hi⟩) :=
    list_get_map generateRule rs i hi hi2
  rw [hg2]
  exact ⟨rfl, rfl, rfl, rfl, rfl, rfl, rfl, rfl, rfl⟩

/-- Witness for C3 at the sample input. -/
theorem c3_policy_rules_witness :
    ∃ zp, dictLookup (generate_policies wPolicies) (normalize_name "US") =
        some zp ∧
      zp.rules.length = [usRule].length ∧
      ∀ i (hi : i < [usRule].length) (hi2 : i < zp.rules.length),
        (zp.rules.get ⟨i, hi2⟩).from_year =
          ([usRule].get ⟨i, hi⟩).from_year ∧
        (zp.rules.get ⟨i, hi2⟩).to_year = ([usRule].get ⟨i, hi⟩).to_year ∧
        (zp.rules.get ⟨i, hi2⟩).in_month = ([usRule].get ⟨i, hi⟩).in_month ∧
        (zp.rules.get ⟨i, hi2⟩).on_day_of_week =
          ([usRule].get ⟨i, hi⟩).on_day_of_week ∧
        (zp.rules.get ⟨i, hi2⟩).on_day_of_month =
          ([usRule].get ⟨i, hi⟩).on_day_of_month ∧
        (zp.rules.get ⟨i, hi2⟩).at_seconds =
          ([usRule].get ⟨i, hi⟩).at_seconds_truncated ∧
        (zp.rules.get ⟨i, hi2⟩).at_time_suffix =
          ([usRule].get ⟨i, hi⟩).at_time_suffix ∧
        (zp.rules.get ⟨i, hi2⟩).delta_seconds =
          ([usRule].get ⟨i, hi⟩).delta_seconds_truncated ∧
        (zp.rules.get ⟨i, hi2⟩).letter = ([usRule].get ⟨i, hi⟩).letter :=
  c3_policy_rules wPolicies (by decide) "US" [usRule] (by decide)

/-- The era used by the C4 counterexample: a standard-only era of the
pure-alias zone US/Pacific. -/
def c4Era : InEra :=
  { rules := "-"
    offset_seconds_truncated := -28800
    rules_delta_seconds_truncated := 0
    format := "P%sT"
    until_year := 10000
    until_month := 1
    until_day := 1
    until_seconds_truncated := 0
    until_time_suffix := "w" }

/-- **C4** counterexample.  US/Pacific is this repository's pure-alias
zone (its tests resolve it to America/Los_Angeles), yet the `ZoneInfo`
generated for it holds exactly the keys `name` and `eras` — the
`link_target` field claimed by C4 is never present, whether or not the
zone is an alias: the dict literal at line 140 of `inline_zone_info.py`
has no such key. -/
theorem c4_counterexample :
    ((InlineZoneInfo.init [("US/Pacific", [c4Era])] []).generate_zonedb).2 =
      Except.ok ([("US/Pacific",
        mkZoneInfo "US/Pacific"
          [eraFields c4Era (ZonePolicyField.str "-")])], []) ∧
    dictLookup (mkZoneInfo "US/Pacific"
      [eraFields c4Era (ZonePolicyField.str "-")]) "link_target" = none ∧
    (mkZoneInfo "US/Pacific"
      [eraFields c4Era (ZonePolicyField.str "-")]).map Prod.fst =
      ["name", "eras"] := by
  exact ⟨rfl, rfl, rfl⟩

/-- **C4** (amended).  For every `(zone_name, eras)` entry of `zones_map`
(with distinct zone names, as for any dict), the generated `ZoneInfo`
holds the zone name under `name`, exactly one `ZoneEra` per input era in
input order under `eras` (with `offset_seconds` from
`offset_seconds_truncated`, `rules_delta_seconds` from
`rules_delta_seconds_truncated`, `until_seconds` from
`until_seconds_truncated`, and `format`, `until_year`, `until_month`,
`until_day`, `until_time_suffix` copied verbatim), and no `link_target`
field: the generator does not represent aliases. -/
theorem c4_zone_info_fields
    (zones : List (String × List InEra))
    (policies : List (String × List InRule))
    (infos : List (String × ZoneInfo)) (zps : List (String × ZonePolicy))
    (hok : ((InlineZoneInfo.init zones policies).generate_zonedb).2 =
      Except.ok (infos, zps))
    (hnd : (zones.map Prod.fst).Nodup)
    (z : String) (es : List InEra) (hm : (z, es) ∈ zones) :
    ∃ zeras, dictLookup infos z = some (mkZoneInfo z zeras) ∧
      dictLookup (mkZoneInfo z zeras) "name" =
        some (ZoneInfoVal.str z) ∧
      dictLookup (mkZoneInfo z zeras) "eras" =
        some (ZoneInfoVal.eraList zeras) ∧
      dictLookup (mkZoneInfo z zeras) "link_target" = none ∧
      zeras.length = es.length ∧
      ∀ i (hi : i < es.length) (hi2 : i < zeras.length),
        (zeras.get ⟨i, hi2⟩).offset_seconds =
          (es.get ⟨i, hi⟩).offset_seconds_truncated ∧
        (zeras.get ⟨i, hi2⟩).rules_delta_seconds =
          (es.get ⟨i, hi⟩).rules_delta_seconds_truncated ∧
        (zeras.get ⟨i, hi2⟩).until_seconds =
          (es.get ⟨i, hi⟩).until_seconds_truncated ∧
        (zeras.get ⟨i, hi2⟩).format = (es.get ⟨i, hi⟩).format ∧
        (zeras.get ⟨i, hi2⟩).until_year = (es.get ⟨i, hi⟩).until_year ∧
        (zeras.get ⟨i, hi2⟩).until_month = (es.get ⟨i, hi⟩).until_month ∧
        (zeras.get ⟨i, hi2⟩).until_day = (es.get ⟨i, hi⟩).until_day ∧
        (zeras.get ⟨i, hi2⟩).until_time_suffix =
          (es.get ⟨i, hi⟩).until_time_suffix := by
  rw [generate_zonedb_snd_ok_iff] at hok
  obtain ⟨hzps, hgi⟩ := hok
  simp only [InlineZoneInfo.init] at hzps hgi
  obtain ⟨zs, hzs, hlook⟩ := generate_infos_go_lookup
    (generate_policies_from [] policies) zones [] hnd (by simp)
    (by rw [hgi]) z es hm
  rw [hgi] at hlook
  refine ⟨zs, hlook, rfl, rfl, rfl,
    (generateEras_ok_pointwise _ _ _ hzs).1, ?_⟩
  intro i hi hi2
  have he := (generateEras_ok_pointwise _ _ _ hzs).2 i hi hi2
  have hf := generateEra_fields _ _ _ he
  exact ⟨hf.1, hf.2.1, hf.2.2.2.2.2.2.1, hf.2.2.1, hf.2.2.2.1,
    hf.2.2.2.2.1, hf.2.2.2.2.2.1, hf.2.2.2.2.2.2.2⟩

/-- Witness for the amended C4 at the sample input. -/
theorem c4_zone_info_fields_witness :
    ∃ zeras, dictLookup wInfos "America/Los_Angeles" =
        some (mkZoneInfo "America/Los_Angeles" zeras) ∧
      dictLookup (mkZoneInfo "America/Los_Angeles" zeras) "name" =
        some (ZoneInfoVal.str "America/Los_Angeles") ∧
      dictLookup (mkZoneInfo "America/Los_Angeles" zeras) "eras" =
        some (ZoneInfoVal.eraList zeras) ∧
      dictLookup (mkZoneInfo "America/Los_Angeles" zeras) "link_target" =
        none ∧
      zeras.length = [wEra0, wEra1].length ∧
      ∀ i (hi : i < [wEra0, wEra1].length) (hi2 : i < zeras.length),
        (zeras.get ⟨i, hi2⟩).offset_seconds =
          ([wEra0, wEra1].get ⟨i, hi⟩).offset_seconds_truncated ∧
        (zeras.get ⟨i, hi2⟩).rules_delta_seconds =
          ([wEra0, wEra1].get ⟨i, hi⟩).rules_delta_seconds_truncated ∧
        (zeras.get ⟨i, hi2⟩).until_seconds =
          ([wEra0, wEra1].get ⟨i, hi⟩).until_seconds_truncated ∧
        (zeras.get ⟨i, hi2⟩).format =
          ([wEra0, wEra1].get ⟨i, hi⟩).format ∧
        (zeras.get ⟨i, hi2⟩).until_year =
          ([wEra0, wEra1].get ⟨i, hi⟩).until_year ∧
        (zeras.get ⟨i, hi2⟩).until_month =
          ([wEra0, wEra1].get ⟨i, hi⟩).until_month ∧
        (zeras.get ⟨i, hi2⟩).until_day =
          ([wEra0, wEra1].get ⟨i, hi⟩).until_day ∧
        (zeras.get ⟨i, hi2⟩).until_time_suffix =
          ([wEra0, wEra1].get ⟨i, hi⟩).until_time_suffix :=
  c4_zone_info_fields wZones wPolicies wInfos wZps (by rfl) (by decide)
    "America/Los_Angeles" [wEra0, wEra1] (by decide)

/-- **C5.** `InlineZoneInfo.generate_zonedb` never mutates its inputs:
after the call (successful or not) the `zones_map` and `policies_map`
given to the constructor are unchanged, every key present and every field
of every input rule and era equal to its value before the call. -/
theorem c5_inputs_unchanged (zones : List (String × List InEra))
    (policies : List (String × List InRule)) :
    (((InlineZoneInfo.init zones policies).generate_zonedb).1).zones_map =
      zones ∧
    (((InlineZoneInfo.init zones policies).generate_zonedb).1).policies_map =
      policies := by
  rw [generate_zonedb_fst]
  exact ⟨rfl, rfl⟩

/-- **C6.** For a local time inside a fall-back overlap (exactly two
claimants, standard offset unchanged across the transition, and each
claimant's `total_offset` the sum of its `utc_offset` and `dst_offset`),
the `fold = 0` and `fold = 1` answers are the earlier and the later
claimant and their offsets differ by exactly the DST delta of the
transition; in particular, for America/Los_Angeles at local
2000-10-29 01:59:59 the epoch second obtained with `fold = 1` exceeds the
one obtained with `fold = 0` by exactly 3600. -/
theorem c6_overlap_offsets :
    (∀ (ts : List ActiveTransition) (L : Int) (t1 t2 : ActiveTransition),
      claimants ts L = [t1, t2] →
      t1.total_offset = t1.utc_offset + t1.dst_offset →
      t2.total_offset = t2.utc_offset + t2.dst_offset →
      t1.utc_offset = t2.utc_offset →
      info_for_local_seconds ts L 0 = some t1 ∧
      info_for_local_seconds ts L 1 = some t2 ∧
      t1.total_offset - t2.total_offset = t1.dst_offset - t2.dst_offset) ∧
    (epoch_for_local LA_2000 2000 10 29 1 59 59 0).isSome = true ∧
    epoch_for_local LA_2000 2000 10 29 1 59 59 1 =
      (epoch_for_local LA_2000 2000 10 29 1 59 59 0).map
        (fun e => e + 3600) := by
  refine ⟨?_, rfl, rfl⟩
  intro ts L t1 t2 hcl h1 h2 hu
  refine ⟨?_, ?_, ?_⟩
  · rw [info_for_local_seconds, hcl]
    rfl
  · rw [info_for_local_seconds, hcl]
    rfl
  · omega

/-- Witness for C6 at the LA fall-back overlap. -/
theorem c6_overlap_offsets_witness :
    info_for_local_seconds LA_2000 972784799 0 = some laPdt ∧
    info_for_local_seconds LA_2000 972784799 1 = some laPst2 ∧
    laPdt.total_offset - laPst2.total_offset =
      laPdt.dst_offset - laPst2.dst_offset :=
  c6_overlap_offsets.1 LA_2000 972784799 laPdt laPst2 (by decide)
    (by decide) (by decide) (by decide)

/-- **C7** counterexample.  Querying the America/Los_Angeles data at local
2000-10-29 01:59:59 yields the epoch seconds asserted by the repository's
tests (Unix 26125199 + 946684800 = 972809999 for `fold = 0` and 972813599
for `fold = 1`), not the 972806399 and 972809999 stated by the claim —
each of the claim's epochs is 3600 too small. -/
theorem c7_counterexample :
    epoch_for_local LA_2000 2000 10 29 1 59 59 0 = some 972809999 ∧
    epoch_for_local LA_2000 2000 10 29 1 59 59 0 ≠ some 972806399 ∧
    epoch_for_local LA_2000 2000 10 29 1 59 59 1 = some 972813599 ∧
    epoch_for_local LA_2000 2000 10 29 1 59 59 1 ≠ some 972809999 := by
  refine ⟨rfl, ?_, rfl, ?_⟩ <;> decide

/-- **C7** (amended).  Querying America/Los_Angeles for local
2000-10-29 01:59:59 returns abbreviation `PDT`, total offset -25200 and
Unix epoch second 972809999 when `fold = 0`, and abbreviation `PST`,
total offset -28800 and Unix epoch second 972813599 when `fold = 1`. -/
theorem c7_la_fall_back_values :
    (info_for_local LA_2000 2000 10 29 1 59 59 0).map
      ActiveTransition.abbreviation = some "PDT" ∧
    (info_for_local LA_2000 2000 10 29 1 59 59 0).map
      ActiveTransition.total_offset = some (-25200) ∧
    epoch_for_local LA_2000 2000 10 29 1 59 59 0 = some 972809999 ∧
    (info_for_local LA_2000 2000 10 29 1 59 59 1).map
      ActiveTransition.abbreviation = some "PST" ∧
    (info_for_local LA_2000 2000 10 29 1 59 59 1).map
      ActiveTransition.total_offset = some (-28800) ∧
    epoch_for_local LA_2000 2000 10 29 1 59 59 1 = some 972813599 := by
  exact ⟨rfl, rfl, rfl, rfl, rfl, rfl⟩

/-- **C8.** In a registry where `US/Pacific` is a link to
`America/Los_Angeles` and the target is canonical, every instant query on
the alias returns the same total offset, abbreviation and DST offset as
on the target, while the alias's display name stays `US/Pacific` and its
link-followed canonical name is `America/Los_Angeles`. -/
theorem c8_alias_identity
    (registry : List (String × ZoneDbEntry)) (s : Int)
    (ae target : ZoneDbEntry)
    (h1 : dictLookup registry "US/Pacific" = some ae)
    (h2 : ae.link_to = some "America/Los_Angeles")
    (h3 : ae.name = "US/Pacific")
    (h4 : dictLookup registry "America/Los_Angeles" = some target)
    (h5 : target.link_to = none)
    (h6 : target.name = "America/Los_Angeles") :
    (info_for_epoch registry "US/Pacific" s).map
        ActiveTransition.total_offset =
      (info_for_epoch registry "America/Los_Angeles" s).map
        ActiveTransition.total_offset ∧
    (info_for_epoch registry "US/Pacific" s).map
        ActiveTransition.abbreviation =
      (info_for_epoch registry "America/Los_Angeles" s).map
        ActiveTransition.abbreviation ∧
    (info_for_epoch registry "US/Pacific" s).map
        ActiveTransition.dst_offset =
      (info_for_epoch registry "America/Los_Angeles" s).map
        ActiveTransition.dst_offset ∧
    tzfullname registry "US/Pacific" false = some "US/Pacific" ∧
    tzfullname registry "US/Pacific" true =
      some "America/Los_Angeles" := by
  have hs : info_for_epoch registry "US/Pacific" s =
      info_for_epoch registry "America/Los_Angeles" s := by
    simp only [info_for_epoch, h1, h4, canonical_entry, h2, h5]
  refine ⟨by rw [hs], by rw [hs], by rw [hs], ?_, ?_⟩
  · simp only [tzfullname, h1, Bool.false_eq_true, if_false]
    rw [h3]
  · simp only [tzfullname, h1, if_true, canonical_entry, h2, h4]
    simp [h6]

/-- The canonical America/Los_Angeles registry entry for the witness. -/
def laEntry : ZoneDbEntry :=
  { name := "America/Los_Angeles", link_to := none, transitions := LA_2000 }

/-- The US/Pacific link entry for the witness. -/
def usPacificEntry : ZoneDbEntry :=
  { name := "US/Pacific", link_to := some "America/Los_Angeles",
    transitions := [] }

/-- The two-zone registry for the witness. -/
def wRegistry : List (String × ZoneDbEntry) :=
  [("America/Los_Angeles", laEntry), ("US/Pacific", usPacificEntry)]

/-- Witness for C8 at the instant of the year-2000 spring-forward. -/
theorem c8_alias_identity_witness :
    (info_for_epoch wRegistry "US/Pacific" 954669600).map
        ActiveTransition.total_offset =
      (info_for_epoch wRegistry "America/Los_Angeles" 954669600).map
        ActiveTransition.total_offset ∧
    (info_for_epoch wRegistry "US/Pacific" 954669600).map
        ActiveTransition.abbreviation =
      (info_for_epoch wRegistry "America/Los_Angeles" 954669600).map
        ActiveTransition.abbreviation ∧
    (info_for_epoch wRegistry "US/Pacific" 954669600).map
        ActiveTransition.dst_offset =
      (info_for_epoch wRegistry "America/Los_Angeles" 954669600).map
        ActiveTransition.dst_offset ∧
    tzfullname wRegistry "US/Pacific" false = some "US/Pacific" ∧
    tzfullname wRegistry "US/Pacific" true =
      some "America/Los_Angeles" :=
  c8_alias_identity wRegistry 954669600 usPacificEntry laEntry (by rfl)
    rfl rfl (by rfl) rfl rfl

/-- **C9.** `generate_zonedb` completes without raising if and only if
every era's `rules` field is `-`, or `:`, or normalizes (via
`normalize_name`) to the normalized name of a policy of `policies_map`
(the generated policy key); otherwise the call raises `KeyError`
(`Except.error`), and the `zone_policies` map built by
`_generate_policies` before the failure is the fully generated map in
either case. -/
theorem c9_generate_zonedb_error_handling
    (zones : List (String × List InEra))
    (policies : List (String × List InRule)) :
    ((((InlineZoneInfo.init zones policies).generate_zonedb).2.isOk =
        true) ↔
      ∀ z es, (z, es) ∈ zones → ∀ e ∈ es,
        e.rules = "-" ∨ e.rules = ":" ∨
          ∃ n rs, (n, rs) ∈ policies ∧
            normalize_name n = normalize_name e.rules) ∧
    (((InlineZoneInfo.init zones
        policies).generate_zonedb).1).zone_policies =
      generate_policies policies ∧
    (¬ (∀ z es, (z, es) ∈ zones → ∀ e ∈ es,
        e.rules = "-" ∨ e.rules = ":" ∨
          ∃ n rs, (n, rs) ∈ policies ∧
            normalize_name n = normalize_name e.rules) →
      ∃ k, ((InlineZoneInfo.init zones policies).generate_zonedb).2 =
        Except.error k) := by
  have hiff : (((InlineZoneInfo.init zones policies).generate_zonedb).2.isOk
      = true) ↔
      ∀ z es, (z, es) ∈ zones → ∀ e ∈ es,
        e.rules = "-" ∨ e.rules = ":" ∨
          ∃ n rs, (n, rs) ∈ policies ∧
            normalize_name n = normalize_name e.rules := by
    rw [generate_zonedb_isOk_iff, generate_infos_go_success_iff]
    constructor
    · intro hall z es hm e he
      have h2 := (generateEras_ok_iff _ _).mp (hall (z, es) hm) e he
      rcases (generateEra_ok_iff _ _).mp h2 with h | h | h
      · exact Or.inl h
      · exact Or.inr (Or.inl h)
      · refine Or.inr (Or.inr ?_)
        obtain ⟨nr, hnr, hnorm⟩ := (generate_policies_lookup_isSome
          policies (normalize_name e.rules)).mp h
        exact ⟨nr.1, nr.2, hnr, hnorm⟩
    · intro hall ze hze
      refine (generateEras_ok_iff _ _).mpr ?_
      intro e he
      refine (generateEra_ok_iff _ _).mpr ?_
      rcases hall ze.1 ze.2 hze e he with h | h | ⟨n, rs, hm, hnorm⟩
      · exact Or.inl h
      · exact Or.inr (Or.inl h)
      · refine Or.inr (Or.inr ?_)
        exact (generate_policies_lookup_isSome policies
          (normalize_name e.rules)).mpr ⟨(n, rs), hm, hnorm⟩
  refine ⟨hiff, ?_, ?_⟩
  · rw [generate_zonedb_fst]
    rfl
  · intro hnot
    cases hres : ((InlineZoneInfo.init zones policies).generate_zonedb).2
      with
    | ok v => exact absurd (hiff.mp (by rw [hres]; rfl)) hnot
    | error k => exact ⟨k, rfl⟩

/-- **C10.** Name normalization never changes stored display names: every
generated `ZonePolicy`'s `name` field is the original un-normalized
policy name even though its map key is the normalized name, and every
generated `ZoneInfo`'s `name` entry is the `zones_map` key verbatim. -/
theorem c10_display_names
    (zones : List (String × List InEra))
    (policies : List (String × List InRule))
    (infos : List (String × ZoneInfo)) (zps : List (String × ZonePolicy))
    (hok : ((InlineZoneInfo.init zones policies).generate_zonedb).2 =
      Except.ok (infos, zps))
    (hndP : (policies.map (fun nr => normalize_name nr.1)).Nodup)
    (hndZ : (zones.map Prod.fst).Nodup) :
    (∀ n rs, (n, rs) ∈ policies →
      ∃ zp, dictLookup zps (normalize_name n) = some zp ∧ zp.name = n) ∧
    (∀ z es, (z, es) ∈ zones →
      ∃ info, dictLookup infos z = some info ∧
        dictLookup info "name" = some (ZoneInfoVal.str z)) := by
  rw [generate_zonedb_snd_ok_iff] at hok
  obtain ⟨hzps, hgi⟩ := hok
  simp only [InlineZoneInfo.init] at hzps hgi
  constructor
  · intro n rs hm
    refine ⟨{ name := n, rules := rs.map generateRule }, ?_, rfl⟩
    rw [hzps]
    exact generate_policies_lookup policies hndP n rs hm
  · intro z es hm
    obtain ⟨zs, hzs, hlook⟩ := generate_infos_go_lookup
      (generate_policies_from [] policies) zones [] hndZ (by simp)
      (by rw [hgi]) z es hm
    rw [hgi] at hlook
    exact ⟨mkZoneInfo z zs, hlook, rfl⟩

/-- Witness for C10 at the sample input. -/
theorem c10_display_names_witness :
    (∀ n rs, (n, rs) ∈ wPolicies →
      ∃ zp, dictLookup wZps (normalize_name n) = some zp ∧ zp.name = n) ∧
    (∀ z es, (z, es) ∈ wZones →
      ∃ info, dictLookup wInfos z = some info ∧
        dictLookup info "name" = some (ZoneInfoVal.str z)) :=
  c10_display_names wZones wPolicies wInfos wZps (by rfl) (by decide)
    (by decide)
